import Mathlib

/-!
Verification development for the legal-document processing pipeline
(`legal-doc-processor-a`).  The definitions below are shallow embeddings of
the Python source:

* `src/utils/global_llm_rate_limiter.py` — process-wide rate limiter
  (`_compute_wait`, `_block_until_slot_sync`, `install_global_llm_rate_limiter`);
* `src/utils/llm.py` — `_respect_rate_limits`, `_is_retryable`,
  `generate_with_retry` with its response cache;
* `src/config.py` — derived rate-limit configuration defaults;
* `src/agents/a2a_dispatch_agent.py` — downstream dispatch with bounded retry;
* `src/agents/parallel_insights_agent.py` — sequential task execution and the
  fail-open merge of per-task results;
* `src/graph/workflow.py` — `run_adk_a` top-level entry point.

Time is modelled by exact rational clocks: `time.sleep(d)` advances the clock
by exactly `d`, and `time.time()` reads it.  Machine floats in the source only
carry wall-clock seconds and small configuration constants, so `ℚ` is a
faithful carrier for the arithmetic actually performed.
-/

namespace LegalDoc

/-! ### Rate limiter state (`global_llm_rate_limiter.py`, `llm.py`)

Both limiter instances (`_LAST_REQUEST_TS`/`_REQUEST_HISTORY` in the global
patch and `LAST_REQUEST_TS`/`REQUEST_HISTORY` in `llm.py`) have the same
shape: a last-grant timestamp and a deque of grant timestamps, oldest first.
-/

structure RLState where
  last : ℚ
  hist : List ℚ
deriving Repr, DecidableEq

/-- Embedding of the `while _REQUEST_HISTORY and _REQUEST_HISTORY[0] < window_start:
_REQUEST_HISTORY.popleft()` loops: drop leading timestamps strictly older
than the window start `w`. -/
def popOld (w : ℚ) (l : List ℚ) : List ℚ :=
  l.dropWhile (fun e => decide (e < w))

/-- Embedding of `_compute_wait` (global_llm_rate_limiter.py, lines 23-35).
Returns the wait amount together with the pruned history (the Python function
prunes the deque in place).  `h.headD 0` is only consulted when
`rpm ≤ h.length`, matching the guarded `_REQUEST_HISTORY[0]` access. -/
def computeWait (minInt : ℚ) (rpm : Nat) (s : RLState) (now : ℚ) : ℚ × List ℚ :=
  let h := popOld (now - 60) s.hist
  let waitInterval := s.last + minInt - now
  let waitWindow := if rpm ≤ h.length then max 0 (60 - (now - h.headD 0)) else 0
  (max (max waitInterval waitWindow) 0, h)

/-- Capacity of the `llm.py` history deque:
`REQUEST_HISTORY = deque(maxlen=max(LLM_RPM_LIMIT, 10))`. -/
def histMaxLen (rpm : Nat) : Nat := max rpm 10

/-- Append to a bounded deque: when the deque is full the oldest entry is
dropped, as `collections.deque` with `maxlen` does. -/
def appendCap (rpm : Nat) (h : List ℚ) (t : ℚ) : List ℚ :=
  if histMaxLen rpm ≤ h.length then h.tail ++ [t] else h ++ [t]

/-- Embedding of `_respect_rate_limits` (llm.py, lines 40-64) under the exact
clock model, called with the lock held at clock value `t0`.  Returns the
recorded grant timestamp and the updated limiter state.

Source correspondence: `now1` is the clock after the interval sleep
(`max t0 (last + MIN_INTERVAL)`), `h1` the history pruned at `now1 - 60`;
when the window is full (`rpm ≤ h1.length`) and `wait_for_window =
60 - (now1 - oldest) > 0` the code sleeps to `oldest + 60` and prunes again;
finally `LAST_REQUEST_TS = time.time()` is recorded and appended. -/
def respectRateLimits (minInt : ℚ) (rpm : Nat) (s : RLState) (t0 : ℚ) : ℚ × RLState :=
  let now1 := max t0 (s.last + minInt)
  let h1 := popOld (now1 - 60) s.hist
  if rpm ≤ h1.length then
    let oldest := h1.headD 0
    if now1 - oldest < 60 then
      let now2 := oldest + 60
      let h2 := popOld (now2 - 60) h1
      (now2, ⟨now2, appendCap rpm h2 now2⟩)
    else
      (now1, ⟨now1, appendCap rpm h1 now1⟩)
  else
    (now1, ⟨now1, appendCap rpm h1 now1⟩)

/-- Traces of acquisitions granted by the GLOBAL patch gate
(`global_llm_rate_limiter.py`), whose module state
`_LAST_REQUEST_TS`/`_REQUEST_HISTORY` is touched by nothing else.
`SyncGrants minInt rpm s₀ g s` holds when, starting from that gate in state
`s₀`, a sequence of grants with timestamps `g` (in grant order) can be
produced, ending in state `s`.  The `_block_until_slot_sync` loop (and its
async twin) grants exactly when `_compute_wait(now) <= 0` at the check time
`t` under `_LOCK`, and records `t`; quantifying over all `t` satisfying the
guard covers every interleaving of concurrent callers, including the
in-place pruning done by failed earlier checks (pruning at an earlier
monotone clock removes a subset of what the grant-time pruning removes).
The history deque of this gate is unbounded. -/
inductive SyncGrants (minInt : ℚ) (rpm : Nat) (s₀ : RLState) : List ℚ → RLState → Prop where
  | nil : SyncGrants minInt rpm s₀ [] s₀
  | sync {g : List ℚ} {s : RLState} (t : ℚ)
      (hg : SyncGrants minInt rpm s₀ g s)
      (hw : (computeWait minInt rpm s t).1 ≤ 0) :
      SyncGrants minInt rpm s₀ (g ++ [t]) ⟨t, (computeWait minInt rpm s t).2 ++ [t]⟩

/-- Traces of acquisitions granted by the `llm.py` gate, whose module state
`LAST_REQUEST_TS`/`REQUEST_HISTORY` is disjoint from the global patch state
above — the two gates share nothing and are not synchronized.
`RespectGrants minInt rpm s₀ g s` holds when, starting from the `llm.py`
gate in state `s₀`, a sequence of `_respect_rate_limits` calls (serialized
by `REQUEST_LOCK` in `generate_with_retry`) arriving at arbitrary clocks can
record the timestamps `g`, ending in state `s`. -/
inductive RespectGrants (minInt : ℚ) (rpm : Nat) (s₀ : RLState) : List ℚ → RLState → Prop where
  | nil : RespectGrants minInt rpm s₀ [] s₀
  | respect {g : List ℚ} {s : RLState} (t0 : ℚ)
      (hg : RespectGrants minInt rpm s₀ g s) :
      RespectGrants minInt rpm s₀ (g ++ [(respectRateLimits minInt rpm s t0).1])
        (respectRateLimits minInt rpm s t0).2

/-- Number of grants inside the trailing 60-second window ending at `T`
(half-open: a grant exactly 60 seconds before `T` is outside). -/
def windowCount (T : ℚ) (g : List ℚ) : Nat :=
  g.countP (fun e => decide (T - 60 < e ∧ e ≤ T))

/-- Invariant tying a grant trace to the limiter state:
consecutive (indeed all) grants are spaced by at least `minInt`, every
trailing 60-second window holds at most `rpm` grants, all grants are at or
before `last`, the stored history is a suffix of the trace, and every grant
younger than `last - 60` is still in the stored history. -/
structure RLInv (minInt : ℚ) (rpm : Nat) (g : List ℚ) (s : RLState) : Prop where
  spaced : List.Pairwise (fun a b => a + minInt ≤ b) g
  window : ∀ T : ℚ, windowCount T g ≤ rpm
  ubound : ∀ e ∈ g, e ≤ s.last
  suffixHist : List.IsSuffix s.hist g
  coverage : ∀ e ∈ g, s.last - 60 < e → e ∈ s.hist

/-! ### Retry, classification and response cache (`llm.py`) -/

/-- Shape of an exception reaching `_is_retryable`: an optional
`status_code` attribute and whether it is a `google.genai.errors.ClientError`
instance. -/
structure GenError where
  status : Option Nat
  isClientError : Bool
deriving Repr, DecidableEq

/-- Constant from llm.py line 21: retryable HTTP status codes 429, 500, 503. -/
def RETRYABLE_STATUS : List Nat := [429, 500, 503]

/-- Embedding of `_is_retryable` (llm.py lines 29-37): retry on a retryable
status code or on any `ClientError`. -/
def isRetryable (e : GenError) : Bool :=
  (match e.status with
   | some s => RETRYABLE_STATUS.contains s
   | none => false) || e.isClientError

/-- Observable outcome of the retry loop: final result, number of
invocations of `model.generate_content`, number of rate-limiter
acquisitions (`_respect_rate_limits` runs exactly once per loop iteration,
before the model call), and the backoff sleeps performed, in order. -/
structure RetryOutcome where
  result : Except GenError String
  invocations : Nat
  acquisitions : Nat
  sleeps : List Nat
deriving Repr

/-- Embedding of the `for attempt in range(1, attempts + 1)` loop of
`generate_with_retry` (llm.py lines 86-111).  `a` is the 1-based attempt
counter and `remaining` the number of attempts still allowed
(`attempts - a + 1`), so `remaining = 1` corresponds to `attempt >= attempts`.
The `remaining = 0` row is unreachable for `attempts ≥ 1` and mirrors the
final `raise RuntimeError` fallback for an empty loop. -/
def attemptLoop (behavior : Nat → Except GenError String) (baseDelay : Nat) :
    Nat → Nat → RetryOutcome
  | _, 0 => ⟨.error ⟨none, false⟩, 0, 0, []⟩
  | a, remaining + 1 =>
    match behavior a with
    | .ok r => ⟨.ok r, 1, 1, []⟩
    | .error e =>
      if remaining = 0 || !(isRetryable e) then ⟨.error e, 1, 1, []⟩
      else
        let rest := attemptLoop behavior baseDelay (a + 1) remaining
        ⟨rest.result, rest.invocations + 1, rest.acquisitions + 1,
          baseDelay ^ a :: rest.sleeps⟩

/-- Result of one `generate_with_retry` call: the retry-loop outcome plus
the response cache after the call. -/
structure GenCallResult where
  outcome : RetryOutcome
  cache : List (String × String)
deriving Repr

/-- Embedding of `generate_with_retry` (llm.py lines 67-112).

The cache key is `hashlib.sha256(prompt.encode()).hexdigest()[:16]` — a
function of the prompt alone; we abstract the digest as a parameter
`hashFn : String → String` so every theorem below holds for the actual
SHA-256 prefix.  Note that no model identifier enters the key.  The global
`RESPONSE_CACHE` dict is threaded as an association list.  the Python
`max_attempts or LLM_MAX_RETRY_ATTEMPTS` treats both `None` and `0` as
"use the default". -/
def generate_with_retry (hashFn : String → String)
    (behavior : Nat → Except GenError String) (prompt : String)
    (maxAttempts : Option Nat) (defaultAttempts : Nat) (baseDelay : Nat)
    (enableCache : Bool) (cache : List (String × String)) : GenCallResult :=
  let cacheKey := hashFn prompt
  if enableCache && (cache.lookup cacheKey).isSome then
    ⟨⟨.ok ((cache.lookup cacheKey).getD ""), 0, 0, []⟩, cache⟩
  else
    let attempts :=
      match maxAttempts with
      | some m => if m = 0 then defaultAttempts else m
      | none => defaultAttempts
    let out := attemptLoop behavior baseDelay 1 attempts
    match out.result with
    | .ok r => ⟨out, if enableCache then (cacheKey, r) :: cache else cache⟩
    | .error _ => ⟨out, cache⟩

/-! ### Configuration defaults (`config.py`) -/

/-- Embedding of legal-doc-processor-a config.py line 39: the environment
value for the RPM limit, defaulted to 8 and floored at 1. -/
def llmRpmLimitA (env : Option Int) : Int := max (env.getD 8) 1

/-- Derived default for `LLM_MIN_CALL_INTERVAL` in legal-doc-processor-a
(config.py lines 40-42): `max(60.0 / LLM_RPM_LIMIT, 8.0)`. -/
def llmMinCallIntervalDefaultA (rpm : ℚ) : ℚ := max (60 / rpm) 8

/-- Default claimed by the specification: `max(60/rpmLimit, 15)` (this is
what config.py of legal-compliance-advisor-b line 40 computes, not
the one of processor-a).  Kept for comparison with `llmMinCallIntervalDefaultA`. -/
def specMinCallIntervalDefault (rpm : ℚ) : ℚ := max (60 / rpm) 15

/-! ### Global limiter installation (`global_llm_rate_limiter.py`) -/

/-- Module-level state mutated by `install_global_llm_rate_limiter`:
`_MIN_INTERVAL`, `_RPM_LIMIT`, `_PATCH_INSTALLED`, and whether the
sync/async `generate_content` methods carry the wrapper. -/
structure PatchState where
  minInterval : ℚ
  rpmLimit : Int
  patchInstalled : Bool
  syncWrapped : Bool
  asyncWrapped : Bool
deriving Repr, DecidableEq

/-- Embedding of `install_global_llm_rate_limiter` (lines 110-141).
`importOk` models the `import google.genai.models` succeeding and
`modelsPresent` that at least one of `Models`/`AsyncModels` exists; on
either failure the function logs and returns without installing.  On the
success path it stores `max(min_interval, 0.1)` and `max(int(rpm_limit), 1)`
and wraps both classes. -/
def install_global_llm_rate_limiter (importOk modelsPresent : Bool)
    (s : PatchState) (minI : ℚ) (rpmL : Int) : PatchState :=
  if s.patchInstalled then s
  else if !importOk then s
  else if !modelsPresent then s
  else
    { minInterval := max minI (1 / 10)
      rpmLimit := max rpmL 1
      patchInstalled := true
      syncWrapped := true
      asyncWrapped := true }

/-! ### Pipeline state (`state/shared_state.py`, `graph/workflow.py`)

`LegalDocumentState` is a string-keyed dict; agents read many fields with
`.get(key, default)` and test presence with `key in state`.  Fields whose
presence is tested, or whose `None`-ness matters, are modelled as `Option`;
list-valued fields accessed through `setdefault(key, [])` behave like
always-present lists.  Dict payloads not inspected by the scheduler
(`metadata_summary`, `context_bundle`, response bodies, audit entries) are
modelled as uninterpreted strings. -/

/-- Value of `state["adk_b_response"]`: either the parsed body of a
successful POST or the `{"status": "dispatch_failed", "error": ...}`
record written on dispatch failure. -/
inductive AdkBPayload where
  | fromServer (body : String)
  | dispatchFailed (err : String)
deriving Repr, DecidableEq

/-- Shallow embedding of the `LegalDocumentState` fields touched by the
parallel-insights merge, the dispatch agent and `run_adk_a`. -/
structure SDict where
  document_id : String
  extracted_clauses : Option (List String)
  clause_count : Option Int
  metadata_summary : Option String
  document_outline : Option (List String)
  key_entities : Option (List String)
  risk_assessments : Option (List String)
  high_risk_count : Option Int
  overall_risk_score : Option ℚ
  recommendation_trace : Option (List String)
  context_bundle : Option String
  ready_for_suggestions : Option Bool
  cost_spent : Option ℚ
  planning_notes : List String
  status : String
  errors : List String
  adk_b_response : Option AdkBPayload
  audit_log : List String
deriving Repr, DecidableEq

/-- Entry of the `results` dict built by `_execute_sequential_tasks`:
either a fresh dict returned by the task (the agents deep-copy their input)
or — on task failure — the fallback `results[label] = state`, which aliases
the canonical state object, so later reads through it observe the state as
mutated so far. -/
inductive TaskRes where
  | value (d : SDict)
  | aliased
deriving Repr, DecidableEq

/-- Resolve a `results` entry against the current canonical state. -/
def resolveRes : TaskRes → SDict → SDict
  | .value d, _ => d
  | .aliased, st => st

/-- Embedding of `_extend_audit_log` (parallel_insights_agent.py lines
267-269): extend only when the audit log of the source is truthy (non-empty). -/
def extendAuditLog (st src : SDict) : SDict :=
  if src.audit_log ≠ [] then { st with audit_log := st.audit_log ++ src.audit_log } else st

/-- Clause-result merge block (`process`, lines 47-50).  Reads resolve the
alias against the state as mutated so far, matching the Python in-place dict
mutation. -/
def mergeClauseBlock (tr : TaskRes) (st : SDict) : SDict :=
  let st1 := { st with
    extracted_clauses := some ((resolveRes tr st).extracted_clauses.getD []) }
  let st2 := { st1 with
    clause_count := some ((resolveRes tr st1).clause_count.getD 0) }
  extendAuditLog st2 (resolveRes tr st2)

/-- Summary-result merge block (`process`, lines 52-56). -/
def mergeSummaryBlock (tr : TaskRes) (st : SDict) : SDict :=
  let st1 := { st with
    metadata_summary :=
      some ((resolveRes tr st).metadata_summary.getD (st.metadata_summary.getD "")) }
  let st2 := { st1 with
    document_outline := some ((resolveRes tr st1).document_outline.getD []) }
  let st3 := { st2 with
    key_entities :=
      some ((resolveRes tr st2).key_entities.getD (st2.key_entities.getD [])) }
  extendAuditLog st3 (resolveRes tr st3)

/-- Write `state["risk_assessments"]` when the key is present in the source
(`if "risk_assessments" in risk_state`, line 59). -/
def setRiskAssessments (src st : SDict) : SDict :=
  match src.risk_assessments with
  | some v => { st with risk_assessments := some v }
  | none => st

/-- Write `state["high_risk_count"]` when present (line 61). -/
def setHighRiskCount (src st : SDict) : SDict :=
  match src.high_risk_count with
  | some v => { st with high_risk_count := some v }
  | none => st

/-- Write `state["overall_risk_score"]` when present (line 63). -/
def setOverallRiskScore (src st : SDict) : SDict :=
  match src.overall_risk_score with
  | some v => { st with overall_risk_score := some v }
  | none => st

/-- Write `state["recommendation_trace"]` when present (line 65). -/
def setRecommendationTrace (src st : SDict) : SDict :=
  match src.recommendation_trace with
  | some v => { st with recommendation_trace := some v }
  | none => st

/-- Write `state["context_bundle"]` when present (line 67). -/
def setContextBundle (src st : SDict) : SDict :=
  match src.context_bundle with
  | some v => { st with context_bundle := some v }
  | none => st

/-- Write `state["ready_for_suggestions"]` when present (line 69). -/
def setReadyForSuggestions (src st : SDict) : SDict :=
  match src.ready_for_suggestions with
  | some v => { st with ready_for_suggestions := some v }
  | none => st

/-- Write `state["cost_spent"]` when present (line 71). -/
def setCostSpent (src st : SDict) : SDict :=
  match src.cost_spent with
  | some v => { st with cost_spent := some v }
  | none => st

/-- Extension of the planning-note list, guarded by truthiness
(lines 73-74 and 82-83). -/
def extendPlanningNotes (src st : SDict) : SDict :=
  if src.planning_notes ≠ [] then
    { st with planning_notes := st.planning_notes ++ src.planning_notes }
  else st

/-- Status write guarded by truthiness (lines 75-76 and 86-87). -/
def setStatusIfTruthy (src st : SDict) : SDict :=
  if src.status ≠ "" then { st with status := src.status } else st

/-- Extension of the error list, guarded by truthiness (lines 77-78 and
88-89). -/
def extendErrors (src st : SDict) : SDict :=
  if src.errors ≠ [] then { st with errors := st.errors ++ src.errors } else st

/-- Write of the dispatch response field, guarded by truthiness
(lines 84-85). -/
def setAdkBResponse (src st : SDict) : SDict :=
  match src.adk_b_response with
  | some v => { st with adk_b_response := some v }
  | none => st

/-- Risk-result merge block (`process`, lines 58-79).  Each field write is
guarded by `"field" in risk_state`; the note/status/error extensions are
guarded by truthiness.  Reads resolve the alias against the state as
mutated so far. -/
def mergeRiskBlock (tr : TaskRes) (st : SDict) : SDict :=
  let st1 := setRiskAssessments (resolveRes tr st) st
  let st2 := setHighRiskCount (resolveRes tr st1) st1
  let st3 := setOverallRiskScore (resolveRes tr st2) st2
  let st4 := setRecommendationTrace (resolveRes tr st3) st3
  let st5 := setContextBundle (resolveRes tr st4) st4
  let st6 := setReadyForSuggestions (resolveRes tr st5) st5
  let st7 := setCostSpent (resolveRes tr st6) st6
  let st8 := extendPlanningNotes (resolveRes tr st7) st7
  let st9 := setStatusIfTruthy (resolveRes tr st8) st8
  let st10 := extendErrors (resolveRes tr st9) st9
  extendAuditLog st10 (resolveRes tr st10)

/-- Suggestion-result merge block (`process`, lines 81-90). -/
def mergeSuggestionBlock (tr : TaskRes) (st : SDict) : SDict :=
  let st1 := extendPlanningNotes (resolveRes tr st) st
  let st2 := setAdkBResponse (resolveRes tr st1) st1
  let st3 := setStatusIfTruthy (resolveRes tr st2) st2
  let st4 := extendErrors (resolveRes tr st3) st3
  extendAuditLog st4 (resolveRes tr st4)

/-- Outcome of `_execute_sequential_tasks`: the canonical state after the
executor ran (the dispatch agent mutates it in place when the risk fallback
aliased it), the four `results` entries, and the `(label, error)` pairs in
collection order. -/
structure SeqOutcome where
  canonical : SDict
  clausesRes : TaskRes
  summaryRes : TaskRes
  riskRes : TaskRes
  suggestionRes : TaskRes
  taskErrors : List (String × String)
deriving Repr

/-- Embedding of `_execute_sequential_tasks` (lines 223-265) in the default
`FORCE_SEQUENTIAL_EXECUTION` mode.  The clause/summary/risk tasks deep-copy
their input, so their behaviors are outcome parameters; the suggestion task
(`dispatch_agent.process`) mutates the dict it is handed, so its behavior is
a function of that dict.  On failure `results[label] = state` installs the
alias.  A raising suggestion task is modelled as leaving the canonical state
unchanged (the dispatch agent catches its own exceptions before mutating).
The fixed `time.sleep(15)` between tasks does not affect the merged state
and is not tracked. -/
def executeSequentialTasks (bClause bSummary bRisk : Except String SDict)
    (bSugg : SDict → Except String SDict) (st : SDict) : SeqOutcome :=
  let (cRes, cErr) :=
    match bClause with
    | .ok d => (TaskRes.value d, ([] : List (String × String)))
    | .error e => (TaskRes.aliased, [("clauses", e)])
  let (sRes, sErr) :=
    match bSummary with
    | .ok d => (TaskRes.value d, ([] : List (String × String)))
    | .error e => (TaskRes.aliased, [("summary", e)])
  let (rRes, rErr) :=
    match bRisk with
    | .ok d => (TaskRes.value d, ([] : List (String × String)))
    | .error e => (TaskRes.aliased, [("risk", e)])
  match rRes with
  | .value d =>
    match bSugg d with
    | .ok d2 =>
      -- dispatch mutated the dict of the risk task in place; both entries alias it
      ⟨st, cRes, sRes, .value d2, .value d2, cErr ++ sErr ++ rErr⟩
    | .error e =>
      ⟨st, cRes, sRes, .value d, .aliased, cErr ++ sErr ++ rErr ++ [("suggestion", e)]⟩
  | .aliased =>
    match bSugg st with
    | .ok d2 =>
      -- dispatch mutated the canonical state itself and returned it
      ⟨d2, cRes, sRes, .aliased, .aliased, cErr ++ sErr ++ rErr⟩
    | .error e =>
      ⟨st, cRes, sRes, .aliased, .aliased, cErr ++ sErr ++ rErr ++ [("suggestion", e)]⟩

/-- Embedding of `ParallelInsightsAgent.process` (lines 29-119) in
sequential mode.  In this mode every `results` entry is a non-empty dict, so
each `if <label>_state:` guard is taken.  The trailing entry models the
`parallel_insights` audit record appended at line 108. -/
def processParallelInsights (bClause bSummary bRisk : Except String SDict)
    (bSugg : SDict → Except String SDict) (st : SDict) : SDict :=
  let seq := executeSequentialTasks bClause bSummary bRisk bSugg st
  let st1 := seq.taskErrors.foldl
    (fun acc le => { acc with errors := acc.errors ++ [le.1 ++ "_task: " ++ le.2] })
    seq.canonical
  let st2 := mergeClauseBlock seq.clausesRes st1
  let st3 := mergeSummaryBlock seq.summaryRes st2
  let st4 := mergeRiskBlock seq.riskRes st3
  let st5 := mergeSuggestionBlock seq.suggestionRes st4
  { st5 with audit_log := st5.audit_log ++ ["parallel_insights"] }

/-- Initial `LegalDocumentState` built by `run_adk_a` (workflow.py lines
43-75): every field is populated. -/
def initialPipelineState (docId : String) : SDict :=
  { document_id := docId
    extracted_clauses := some []
    clause_count := some 0
    metadata_summary := some ""
    document_outline := some []
    key_entities := some []
    risk_assessments := some []
    high_risk_count := some 0
    overall_risk_score := some 0
    recommendation_trace := some []
    context_bundle := some ""
    ready_for_suggestions := some false
    cost_spent := some 0
    planning_notes := []
    status := "pending"
    errors := []
    adk_b_response := none
    audit_log := [] }

/-- Embedding of `run_adk_a` (workflow.py lines 39-95).  `invokeOutcome` is
the result of `app.invoke(initial_state)`: either the final state or a
raised exception, which the `except` block converts into the initial state
with status `error` and the error appended. -/
def run_adk_a (docId : String) (invokeOutcome : Except String SDict) : SDict :=
  match invokeOutcome with
  | .ok result => result
  | .error e =>
    let ini := initialPipelineState docId
    { ini with status := "error", errors := ini.errors ++ ["Workflow error: " ++ e] }

/-! ### Downstream dispatch (`a2a_dispatch_agent.py`) -/

/-- Result of a `requests.Session.post` that did not raise. -/
structure HttpResponse where
  code : Nat
  body : String
deriving Repr, DecidableEq

/-- Truthiness of `response.ok`: HTTP status below 400. -/
def responseOk (r : HttpResponse) : Bool := r.code < 400

/-- Constant from line 14: (connect, read) timeout in seconds. -/
def DISPATCH_TIMEOUT : Nat × Nat := (10, 180)

/-- Constant from line 15: at most 3 POST attempts. -/
def MAX_ATTEMPTS : Nat := 3

/-- Constant from line 16: base backoff of 5 seconds. -/
def BACKOFF_SECONDS : Nat := 5

/-- Observable trace of the dispatch retry loop: the first successful
response if any, the last `requests.RequestException` seen, the POST calls
made as `(attempt, connectTimeout, readTimeout)`, the sleeps inserted
between attempts, and the planning notes appended. -/
structure DispatchLoopResult where
  response : Option HttpResponse
  lastError : Option String
  calls : List (Nat × Nat × Nat)
  sleeps : List Nat
  notes : List String
deriving Repr, DecidableEq

/-- Embedding of the `for attempt in range(1, MAX_ATTEMPTS + 1)` loop of
`A2ADispatchAgent.process` (lines 66-86): POST with `DISPATCH_TIMEOUT`,
break on success, record a note per failure, and sleep
`BACKOFF_SECONDS * attempt` before the next attempt when one remains. -/
def dispatchLoop (att : Nat → Nat × Nat → Except String HttpResponse) :
    Nat → Nat → DispatchLoopResult
  | _, 0 => ⟨none, none, [], [], []⟩
  | a, r + 1 =>
    match att a DISPATCH_TIMEOUT with
    | .ok resp => ⟨some resp, none, [(a, DISPATCH_TIMEOUT.1, DISPATCH_TIMEOUT.2)], [], []⟩
    | .error e =>
      let note := "Dispatch attempt " ++ toString a ++ " failed: " ++ e
      if r = 0 then
        ⟨none, some e, [(a, DISPATCH_TIMEOUT.1, DISPATCH_TIMEOUT.2)], [], [note]⟩
      else
        let rest := dispatchLoop att (a + 1) r
        ⟨rest.response, some (rest.lastError.getD e),
          (a, DISPATCH_TIMEOUT.1, DISPATCH_TIMEOUT.2) :: rest.calls,
          BACKOFF_SECONDS * a :: rest.sleeps, note :: rest.notes⟩

/-- Embedding of `A2ADispatchAgent.process` (lines 42-135), excluding the
outer catch-all (none of the modelled steps raise).  Note the
all-attempts-failed branch returns at line 107 before the audit entry is
appended. -/
def a2aDispatchProcess (enableDispatch : Bool)
    (att : Nat → Nat × Nat → Except String HttpResponse) (st : SDict) : SDict :=
  if !enableDispatch then
    { st with
      status := "completed"
      planning_notes := st.planning_notes ++ ["Dispatch disabled via config"] }
  else if !(st.ready_for_suggestions.getD false) then
    { st with
      status := "completed"
      planning_notes := st.planning_notes ++ ["Dispatch skipped: no actionable risks detected"] }
  else
    let loopRes := dispatchLoop att 1 MAX_ATTEMPTS
    let st1 := { st with planning_notes := st.planning_notes ++ loopRes.notes }
    match loopRes.response with
    | none =>
      let err := loopRes.lastError.getD ""
      { st1 with
        errors := st1.errors ++ ["ADK-B dispatch failed after 3 attempts: " ++ err]
        adk_b_response := some (.dispatchFailed err)
        planning_notes := st1.planning_notes ++ ["ADK-B unreachable; captured warning"]
        status := "completed_with_warning" }
    | some r =>
      if responseOk r then
        { st1 with
          adk_b_response := some (.fromServer r.body)
          planning_notes := st1.planning_notes ++ ["ADK-B suggestions requested via MCP portal"]
          status := "completed"
          audit_log := st1.audit_log ++ ["a2a_dispatch"] }
      else
        { st1 with
          adk_b_response := some (.dispatchFailed ("HTTP " ++ toString r.code))
          status := "completed_with_warning"
          audit_log := st1.audit_log ++ ["a2a_dispatch"] }

/-- Pipeline state as it stands when the parallel-insights stage begins on a
normally ingested document: all keys populated, status `processing`, prior
agents have left planning notes and audit entries. -/
def sampleProcessingState : SDict :=
  { initialPipelineState "doc-1" with
    status := "processing"
    planning_notes := ["planned"]
    audit_log := ["ingest", "plan"] }

/-- Dict a successful clause-extraction task returns for
`sampleProcessingState` (a deep copy with the clause fields filled and an
audit entry appended). -/
def sampleClauseResult : SDict :=
  { sampleProcessingState with
    extracted_clauses := some ["c1"]
    clause_count := some 1
    audit_log := sampleProcessingState.audit_log ++ ["clause"] }

/-- Dict a successful metadata-summary task returns for
`sampleProcessingState`. -/
def sampleSummaryResult : SDict :=
  { sampleProcessingState with
    document_outline := some ["intro"]
    key_entities := some ["ACME"]
    audit_log := sampleProcessingState.audit_log ++ ["summary"] }

/-! ### Theorems -/

/-- Helper: the audit-log extension only appends the (truthy) source
audit log. -/
theorem extendAuditLog_eq (a b : SDict) :
    extendAuditLog a b
      = { a with audit_log := a.audit_log ++ (if b.audit_log = [] then [] else b.audit_log) } := by
  unfold extendAuditLog
  split <;> rename_i h <;> simp at h <;> simp [h]

/-- Helper: normal form of the guarded `risk_assessments` write. -/
theorem setRiskAssessments_eq (src st : SDict) :
    setRiskAssessments src st
      = { st with risk_assessments := src.risk_assessments.or st.risk_assessments } := by
  cases h : src.risk_assessments <;> simp [setRiskAssessments, h]

/-- Helper: normal form of the guarded `high_risk_count` write. -/
theorem setHighRiskCount_eq (src st : SDict) :
    setHighRiskCount src st
      = { st with high_risk_count := src.high_risk_count.or st.high_risk_count } := by
  cases h : src.high_risk_count <;> simp [setHighRiskCount, h]

/-- Helper: normal form of the guarded `overall_risk_score` write. -/
theorem setOverallRiskScore_eq (src st : SDict) :
    setOverallRiskScore src st
      = { st with overall_risk_score := src.overall_risk_score.or st.overall_risk_score } := by
  cases h : src.overall_risk_score <;> simp [setOverallRiskScore, h]

/-- Helper: normal form of the guarded `recommendation_trace` write. -/
theorem setRecommendationTrace_eq (src st : SDict) :
    setRecommendationTrace src st
      = { st with recommendation_trace := src.recommendation_trace.or st.recommendation_trace } := by
  cases h : src.recommendation_trace <;> simp [setRecommendationTrace, h]

/-- Helper: normal form of the guarded `context_bundle` write. -/
theorem setContextBundle_eq (src st : SDict) :
    setContextBundle src st
      = { st with context_bundle := src.context_bundle.or st.context_bundle } := by
  cases h : src.context_bundle <;> simp [setContextBundle, h]

/-- Helper: normal form of the guarded `ready_for_suggestions` write. -/
theorem setReadyForSuggestions_eq (src st : SDict) :
    setReadyForSuggestions src st
      = { st with ready_for_suggestions := src.ready_for_suggestions.or st.ready_for_suggestions } := by
  cases h : src.ready_for_suggestions <;> simp [setReadyForSuggestions, h]

/-- Helper: normal form of the guarded `cost_spent` write. -/
theorem setCostSpent_eq (src st : SDict) :
    setCostSpent src st = { st with cost_spent := src.cost_spent.or st.cost_spent } := by
  cases h : src.cost_spent <;> simp [setCostSpent, h]

/-- Helper: normal form of the guarded `adk_b_response` write. -/
theorem setAdkBResponse_eq (src st : SDict) :
    setAdkBResponse src st
      = { st with adk_b_response := src.adk_b_response.or st.adk_b_response } := by
  cases h : src.adk_b_response <;> simp [setAdkBResponse, h]

/-- Helper: normal form of the truthiness-guarded status write. -/
theorem setStatusIfTruthy_eq (src st : SDict) :
    setStatusIfTruthy src st
      = { st with status := if src.status = "" then st.status else src.status } := by
  unfold setStatusIfTruthy
  split <;> rename_i h <;> simp at h <;> simp [h]

/-- Helper: normal form of the truthiness-guarded error-list extension. -/
theorem extendErrors_eq (src st : SDict) :
    extendErrors src st
      = { st with errors := st.errors ++ (if src.errors = [] then [] else src.errors) } := by
  unfold extendErrors
  split <;> rename_i h <;> simp at h <;> simp [h]

/-- Helper: normal form of the truthiness-guarded planning-note extension. -/
theorem extendPlanningNotes_eq (src st : SDict) :
    extendPlanningNotes src st
      = { st with
          planning_notes :=
            st.planning_notes ++ (if src.planning_notes = [] then [] else src.planning_notes) } := by
  unfold extendPlanningNotes
  split <;> rename_i h <;> simp at h <;> simp [h]

/-- C3 (amended).  Fail-open merge in sequential mode when the risk task
raises `eR` and the suggestion task raises `eSg` (clause and summary
succeed): the scheduler appends one `"<label>_task: <error>"` entry per
failed task, but the fallback `results[label] = state` aliases the live
state, so the risk and suggestion merge blocks then re-extend the error
list with itself — the error list ends as four copies of the post-append
list, not single appends.  The owned fields of the failed stages keep their
pre-stage values, the successful stages are still merged (the run is not
aborted), and the status is left at its pre-stage value rather than being
downgraded to `completed_with_warning`. -/
theorem fail_open_merge_amended (st0 dC dS : SDict) (eR eSg : String) :
    (processParallelInsights (.ok dC) (.ok dS) (.error eR) (fun _ => .error eSg) st0).errors
      = (st0.errors ++ ["risk_task: " ++ eR, "suggestion_task: " ++ eSg])
          ++ (st0.errors ++ ["risk_task: " ++ eR, "suggestion_task: " ++ eSg])
          ++ ((st0.errors ++ ["risk_task: " ++ eR, "suggestion_task: " ++ eSg])
            ++ (st0.errors ++ ["risk_task: " ++ eR, "suggestion_task: " ++ eSg]))
    ∧ (processParallelInsights (.ok dC) (.ok dS) (.error eR) (fun _ => .error eSg) st0).status
        = st0.status
    ∧ (processParallelInsights (.ok dC) (.ok dS) (.error eR) (fun _ => .error eSg)
        st0).risk_assessments = st0.risk_assessments
    ∧ (processParallelInsights (.ok dC) (.ok dS) (.error eR) (fun _ => .error eSg)
        st0).high_risk_count = st0.high_risk_count
    ∧ (processParallelInsights (.ok dC) (.ok dS) (.error eR) (fun _ => .error eSg)
        st0).overall_risk_score = st0.overall_risk_score
    ∧ (processParallelInsights (.ok dC) (.ok dS) (.error eR) (fun _ => .error eSg)
        st0).adk_b_response = st0.adk_b_response
    ∧ (processParallelInsights (.ok dC) (.ok dS) (.error eR) (fun _ => .error eSg)
        st0).extracted_clauses = some (dC.extracted_clauses.getD [])
    ∧ (processParallelInsights (.ok dC) (.ok dS) (.error eR) (fun _ => .error eSg)
        st0).document_outline = some (dS.document_outline.getD []) := by
  have hseq : executeSequentialTasks (.ok dC) (.ok dS) (.error eR) (fun _ => .error eSg) st0
      = ⟨st0, .value dC, .value dS, .aliased, .aliased,
          [("risk", eR), ("suggestion", eSg)]⟩ := rfl
  refine ⟨?_, ?_, ?_, ?_, ?_, ?_, ?_, ?_⟩ <;>
    simp [processParallelInsights, hseq, mergeClauseBlock, mergeSummaryBlock,
      mergeRiskBlock, mergeSuggestionBlock, resolveRes, extendAuditLog_eq,
      setRiskAssessments_eq, setHighRiskCount_eq, setOverallRiskScore_eq,
      setRecommendationTrace_eq, setContextBundle_eq, setReadyForSuggestions_eq,
      setCostSpent_eq, setAdkBResponse_eq, setStatusIfTruthy_eq, extendErrors_eq,
      extendPlanningNotes_eq, List.append_assoc]

/-- C3 counterexample.  Concrete sequential run (status `processing`, empty
error list) in which the risk task raises `boom` and the suggestion task
raises `down`: the merge appends eight error strings — `risk_task: boom`
appears four times — instead of exactly one per failed stage, and the
status stays `processing` instead of being downgraded to
`completed_with_warning`. -/
theorem fail_open_merge_counterexample :
    (processParallelInsights (.ok sampleClauseResult) (.ok sampleSummaryResult)
        (.error "boom") (fun _ => .error "down") sampleProcessingState).errors.length = 8
    ∧ (processParallelInsights (.ok sampleClauseResult) (.ok sampleSummaryResult)
        (.error "boom") (fun _ => .error "down") sampleProcessingState).errors.count
        "risk_task: boom" = 4
    ∧ (processParallelInsights (.ok sampleClauseResult) (.ok sampleSummaryResult)
        (.error "boom") (fun _ => .error "down") sampleProcessingState).status = "processing"
    ∧ "processing" ≠ "completed_with_warning" :=
  ⟨rfl, rfl, rfl, by decide⟩

/-- C4 (amended).  Neither `run_adk_a` nor the modelled
`ParallelInsightsAgent.process` propagates a stage exception or the workflow exception, namely the
exception: `run_adk_a` returns the invoke result unchanged on success and,
on a workflow-level exception, returns the initial state with terminal
status `error` and the error recorded; a run in which every insight task
raises still returns a state whose error list records each task failure —
but its status is left at the (non-terminal) pre-stage value, so callers are
not always handed a terminal status. -/
theorem scheduler_returns_state (docId : String) :
    (∀ s : SDict, run_adk_a docId (.ok s) = s)
    ∧ (∀ e : String,
        (run_adk_a docId (.error e)).status = "error"
        ∧ (run_adk_a docId (.error e)).errors = ["Workflow error: " ++ e])
    ∧ (∀ (st0 : SDict) (e1 e2 e3 e4 : String),
        ("clauses_task: " ++ e1) ∈ (processParallelInsights (.error e1) (.error e2)
          (.error e3) (fun _ => .error e4) st0).errors
        ∧ ("summary_task: " ++ e2) ∈ (processParallelInsights (.error e1) (.error e2)
            (.error e3) (fun _ => .error e4) st0).errors
        ∧ ("risk_task: " ++ e3) ∈ (processParallelInsights (.error e1) (.error e2)
            (.error e3) (fun _ => .error e4) st0).errors
        ∧ ("suggestion_task: " ++ e4) ∈ (processParallelInsights (.error e1) (.error e2)
            (.error e3) (fun _ => .error e4) st0).errors
        ∧ (processParallelInsights (.error e1) (.error e2) (.error e3)
            (fun _ => .error e4) st0).status = st0.status) := by
  refine ⟨fun s => rfl, fun e => ⟨rfl, rfl⟩, fun st0 e1 e2 e3 e4 => ?_⟩
  have hseq : executeSequentialTasks (.error e1) (.error e2) (.error e3)
      (fun _ => .error e4) st0
      = ⟨st0, .aliased, .aliased, .aliased, .aliased,
          [("clauses", e1), ("summary", e2), ("risk", e3), ("suggestion", e4)]⟩ := rfl
  refine ⟨?_, ?_, ?_, ?_, ?_⟩ <;>
    simp [processParallelInsights, hseq, mergeClauseBlock, mergeSummaryBlock,
      mergeRiskBlock, mergeSuggestionBlock, resolveRes, extendAuditLog_eq,
      setRiskAssessments_eq, setHighRiskCount_eq, setOverallRiskScore_eq,
      setRecommendationTrace_eq, setContextBundle_eq, setReadyForSuggestions_eq,
      setCostSpent_eq, setAdkBResponse_eq, setStatusIfTruthy_eq, extendErrors_eq,
      extendPlanningNotes_eq, List.append_assoc]

/-- Helper: pruning the history yields a suffix of it. -/
theorem popOld_isSuffix (w : ℚ) (l : List ℚ) : List.IsSuffix (popOld w l) l :=
  List.dropWhile_suffix _

/-- Helper: appending the same element preserves the suffix relation. -/
theorem isSuffix_append_single {l g : List ℚ} (t : ℚ) (h : List.IsSuffix l g) :
    List.IsSuffix (l ++ [t]) (g ++ [t]) := by
  obtain ⟨pre, hp⟩ := h
  exact ⟨pre, by rw [← List.append_assoc, hp]⟩

/-- Helper: an element at or above the pruning threshold survives the
pruning (only a prefix of strictly older entries is dropped). -/
theorem mem_popOld (w x : ℚ) (l : List ℚ) (hx : x ∈ l) (hw : w ≤ x) :
    x ∈ popOld w l := by
  unfold popOld
  induction l with
  | nil => cases hx
  | cons a t ih =>
    rcases List.mem_cons.mp hx with rfl | hxt
    · have hna : ¬(x < w) := not_lt.mpr hw
      simp [List.dropWhile_cons, hna]
    · by_cases hd : a < w
      · simpa [List.dropWhile_cons, hd] using ih hxt
      · simp [List.dropWhile_cons, hd, hxt]

/-- Helper: the head of the pruned history is at or above the threshold. -/
theorem head_popOld_ge (w : ℚ) (l : List ℚ) (a : ℚ) (rest : List ℚ)
    (h : popOld w l = a :: rest) : w ≤ a := by
  unfold popOld at h
  induction l with
  | nil => simp at h
  | cons b t ih =>
    rw [List.dropWhile_cons] at h
    split at h
    · exact ih h
    · rename_i hd
      simp only [decide_eq_true_eq] at hd
      obtain rfl : b = a := by injection h
      exact not_lt.mp hd

/-- Helper: `countP` is monotone along a pointwise implication. -/
theorem countP_mono_of_imp (p q : ℚ → Bool) (l : List ℚ)
    (h : ∀ x ∈ l, p x = true → q x = true) : l.countP p ≤ l.countP q := by
  induction l with
  | nil => simp
  | cons a t ih =>
    rw [List.countP_cons, List.countP_cons]
    have ht := ih fun x hx => h x (List.mem_cons_of_mem a hx)
    by_cases hp : p a = true
    · rw [hp, h a (List.mem_cons_self a t) hp]
      omega
    · have h0 : (if p a = true then 1 else 0) = 0 := by simp [hp]
      rw [h0]
      have : (if q a = true then 1 else 0) = 0 ∨ (if q a = true then 1 else 0) = 1 := by
        by_cases hq : q a = true <;> simp [hq]
      omega

/-- Helper: counting matches of a duplicate-free list is bounded by the
length of any list containing all matches. -/
theorem countP_le_length_of_subset (p : ℚ → Bool) (g h : List ℚ) (hnd : g.Nodup)
    (hsub : ∀ x ∈ g, p x = true → x ∈ h) : g.countP p ≤ h.length := by
  have h1 : g.countP p = (g.filter p).length := List.countP_eq_length_filter _ _
  rw [h1]
  refine List.Subperm.length_le (List.Nodup.subperm (hnd.filter p) ?_)
  intro x hx
  rcases List.mem_filter.mp hx with ⟨hxg, hpx⟩
  exact hsub x hxg hpx

/-- Helper: split a weak-inequality count at the boundary value. -/
theorem countP_le_split (w : ℚ) (l : List ℚ) :
    l.countP (fun e => decide (w ≤ e))
      = l.countP (fun e => decide (w < e)) + l.countP (fun e => decide (e = w)) := by
  induction l with
  | nil => simp
  | cons a t ih =>
    simp only [List.countP_cons, ih]
    rcases lt_trichotomy a w with h | h | h
    · have h1 : ¬(w ≤ a) := not_le.mpr h
      have h2 : ¬(w < a) := by linarith
      have h3 : a ≠ w := ne_of_lt h
      simp [h1, h2, h3]
    · subst h
      simp
      omega
    · have h1 : w ≤ a := le_of_lt h
      have h3 : a ≠ w := ne_of_gt h
      simp [h1, h, h3]
      omega

/-- Helper: a present value is counted at least once. -/
theorem one_le_countP_eq (w : ℚ) (l : List ℚ) (h : w ∈ l) :
    1 ≤ l.countP (fun e => decide (e = w)) := by
  have : 0 < l.countP (fun e => decide (e = w)) :=
    List.countP_pos_iff.mpr ⟨w, h, by simp⟩
  omega

/-- Helper: grant timestamps are pairwise distinct (spacing is positive). -/
theorem RLInv.nodup {minInt : ℚ} {rpm : Nat} {g : List ℚ} {s : RLState}
    (hmin : 0 < minInt) (inv : RLInv minInt rpm g s) : g.Nodup :=
  inv.spaced.imp fun {a b} hab => by intro hEq; rw [hEq] at hab; linarith

/-- Helper: if some grant `c` younger than `last - 60` is in the trace,
then fewer than `rpm` grants lie strictly above `c` (window bound at
`T = last` counts `c` as well). -/
theorem count_above_mem_lt {minInt : ℚ} {rpm : Nat} {g : List ℚ} {s : RLState}
    (_hmin : 0 < minInt) (inv : RLInv minInt rpm g s) (c : ℚ) (hc : c ∈ g)
    (hcga : s.last - 60 < c) :
    g.countP (fun e => decide (c < e)) + 1 ≤ rpm := by
  have hwin := inv.window s.last
  have h1 : g.countP (fun e => decide (c ≤ e)) ≤ windowCount s.last g := by
    unfold windowCount
    refine countP_mono_of_imp _ _ _ fun x hx hpx => ?_
    simp only [decide_eq_true_eq] at hpx ⊢
    exact ⟨lt_of_lt_of_le hcga hpx, inv.ubound x hx⟩
  have h2 := countP_le_split c g
  have h3 := one_le_countP_eq c g hc
  omega

/-- Helper: every grant younger than a prospective grant time `t` survives
in the history pruned at any threshold `w ≤ t - 60`. -/
theorem recent_mem_pop {minInt : ℚ} {rpm : Nat} {g : List ℚ} {s : RLState}
    (hmin : 0 < minInt) (inv : RLInv minInt rpm g s) (t w : ℚ)
    (ht : s.last + minInt ≤ t) (hw : w ≤ t - 60) :
    ∀ e ∈ g, t - 60 < e → e ∈ popOld w s.hist := by
  intro e heg hrec
  have h1 : s.last - 60 < e := by linarith
  exact mem_popOld w e s.hist (inv.coverage e heg h1) (by linarith)

/-- Helper: when the pruned history holds fewer than `rpm` entries, fewer
than `rpm` trace entries are younger than `t - 60`. -/
theorem count_bound_of_short {minInt : ℚ} {rpm : Nat} {g : List ℚ} {s : RLState}
    (hmin : 0 < minInt) (inv : RLInv minInt rpm g s) (t w : ℚ)
    (ht : s.last + minInt ≤ t) (hw : w ≤ t - 60)
    (hlen : (popOld w s.hist).length < rpm) :
    g.countP (fun e => decide (t - 60 < e)) + 1 ≤ rpm := by
  have hcnt : g.countP (fun e => decide (t - 60 < e)) ≤ (popOld w s.hist).length := by
    refine countP_le_length_of_subset _ _ _ (RLInv.nodup hmin inv) fun x hx hpx => ?_
    simp only [decide_eq_true_eq] at hpx
    exact recent_mem_pop hmin inv t w ht hw x hx hpx
  omega

/-- Helper: when the oldest surviving grant sits exactly at `t - 60`, the
window bound still leaves room for the grant at `t`. -/
theorem count_bound_of_boundary {minInt : ℚ} {rpm : Nat} {g : List ℚ} {s : RLState}
    (hmin : 0 < minInt) (inv : RLInv minInt rpm g s) (t : ℚ)
    (ht : s.last + minInt ≤ t) (hmem : (t - 60) ∈ g) :
    g.countP (fun e => decide (t - 60 < e)) + 1 ≤ rpm :=
  count_above_mem_lt hmin inv (t - 60) hmem (by linarith)

/-- Helper: recording a grant at `t` preserves the limiter invariant,
provided the spacing from the previous grant holds and at most `rpm - 1`
trace entries are younger than `t - 60`. -/
theorem RLInv.append {minInt : ℚ} {rpm : Nat} {g : List ℚ} {s : RLState}
    (inv : RLInv minInt rpm g s) (hmin : 0 < minInt) (t : ℚ) (s2 : RLState)
    (ht : s.last + minInt ≤ t)
    (hcount : g.countP (fun e => decide (t - 60 < e)) + 1 ≤ rpm)
    (hlast : s2.last = t)
    (hsuffix : List.IsSuffix s2.hist (g ++ [t]))
    (hcover : ∀ e ∈ g ++ [t], t - 60 < e → e ∈ s2.hist) :
    RLInv minInt rpm (g ++ [t]) s2 := by
  refine ⟨?_, ?_, ?_, hsuffix, ?_⟩
  · refine List.pairwise_append.mpr ⟨inv.spaced, List.pairwise_singleton _ _, ?_⟩
    intro a ha b hb
    obtain rfl : b = t := by simpa using hb
    have := inv.ubound a ha
    linarith
  · intro T
    unfold windowCount
    rw [List.countP_append]
    by_cases hT : T - 60 < t ∧ t ≤ T
    · have hsing : List.countP (fun e => decide (T - 60 < e ∧ e ≤ T)) [t] = 1 := by
        simp [hT.1, hT.2]
      rw [hsing]
      have hmono : g.countP (fun e => decide (T - 60 < e ∧ e ≤ T))
          ≤ g.countP (fun e => decide (t - 60 < e)) := by
        refine countP_mono_of_imp _ _ _ fun x hx hpx => ?_
        simp only [decide_eq_true_eq] at hpx ⊢
        have := hT.2
        linarith [hpx.1]
      omega
    · have hsing : List.countP (fun e => decide (T - 60 < e ∧ e ≤ T)) [t] = 0 := by
        simp only [List.countP_cons, List.countP_nil, decide_eq_true_eq]
        simp [hT]
      rw [hsing]
      have := inv.window T
      unfold windowCount at this
      omega
  · intro e he
    rw [hlast]
    rcases List.mem_append.mp he with heg | het
    · have := inv.ubound e heg
      linarith
    · obtain rfl : e = t := by simpa using het
      exact le_refl _
  · intro e he hrec
    rw [hlast] at hrec
    exact hcover e he hrec

/-- Helper: membership in a capped append, away from the (possibly
dropped) head. -/
theorem mem_appendCap_of_ne_head (rpm : Nat) (h1 : List ℚ) (t e a : ℚ)
    (rest : List ℚ) (ha : h1 = a :: rest) (he : e ∈ h1) (hne : e ≠ a) :
    e ∈ appendCap rpm h1 t := by
  unfold appendCap
  split
  · subst ha
    rcases List.mem_cons.mp he with rfl | ht
    · exact absurd rfl hne
    · exact List.mem_append.mpr (Or.inl ht)
  · exact List.mem_append.mpr (Or.inl he)

/-- Helper: membership survives a capped append when the deque is short. -/
theorem mem_appendCap_of_short (rpm : Nat) (h1 : List ℚ) (t e : ℚ)
    (hlen : h1.length < rpm) (he : e ∈ h1) : e ∈ appendCap rpm h1 t := by
  unfold appendCap
  rw [if_neg (by unfold histMaxLen; omega)]
  exact List.mem_append.mpr (Or.inl he)

/-- Helper: the appended element is always in a capped append. -/
theorem mem_appendCap_self (rpm : Nat) (h1 : List ℚ) (t : ℚ) :
    t ∈ appendCap rpm h1 t := by
  unfold appendCap
  split <;> exact List.mem_append.mpr (Or.inr (List.mem_singleton.mpr rfl))

/-- Helper: a capped append of a suffix is a suffix of the appended list. -/
theorem appendCap_suffix (rpm : Nat) (h1 g : List ℚ) (t : ℚ)
    (hsub : List.IsSuffix h1 g) :
    List.IsSuffix (appendCap rpm h1 t) (g ++ [t]) := by
  unfold appendCap
  split
  · exact isSuffix_append_single t ((List.tail_suffix h1).trans hsub)
  · exact isSuffix_append_single t hsub

/-- Helper: a `_block_until_slot_sync` grant preserves the invariant. -/
theorem RLInv.syncStep {minInt : ℚ} {rpm : Nat} {g : List ℚ} {s : RLState}
    (inv : RLInv minInt rpm g s) (hmin : 0 < minInt) (hrpm : 1 ≤ rpm)
    (t : ℚ) (hw : (computeWait minInt rpm s t).1 ≤ 0) :
    RLInv minInt rpm (g ++ [t]) ⟨t, (computeWait minInt rpm s t).2 ++ [t]⟩ := by
  replace hw : max (max (s.last + minInt - t)
      (if rpm ≤ (popOld (t - 60) s.hist).length then
        max 0 (60 - (t - (popOld (t - 60) s.hist).headD 0)) else 0)) 0 ≤ 0 := hw
  have hpair : (computeWait minInt rpm s t).2 = popOld (t - 60) s.hist := rfl
  rw [hpair]
  rw [max_le_iff, max_le_iff] at hw
  have ht : s.last + minInt ≤ t := by linarith [hw.1.1]
  have hcount : g.countP (fun e => decide (t - 60 < e)) + 1 ≤ rpm := by
    by_cases hlen : rpm ≤ (popOld (t - 60) s.hist).length
    · obtain ⟨a, rest, ha⟩ : ∃ a rest, popOld (t - 60) s.hist = a :: rest := by
        cases hcons : popOld (t - 60) s.hist with
        | nil => rw [hcons] at hlen; simp at hlen; omega
        | cons a rest => exact ⟨a, rest, rfl⟩
      have hga : t - 60 ≤ a := head_popOld_ge (t - 60) s.hist a rest ha
      have hww := hw.1.2
      rw [if_pos hlen, ha] at hww
      simp only [List.headD_cons] at hww
      have hle : a ≤ t - 60 := by
        have h60 : 60 - (t - a) ≤ 0 := le_trans (le_max_right _ _) hww
        linarith
      have hmem : (t - 60) ∈ g := by
        have hag : a ∈ g := inv.suffixHist.subset
          ((popOld_isSuffix (t - 60) s.hist).subset (ha ▸ List.mem_cons_self a rest))
        have : a = t - 60 := le_antisymm hle hga
        rwa [this] at hag
      exact count_bound_of_boundary hmin inv t ht hmem
    · exact count_bound_of_short hmin inv t (t - 60) ht le_rfl (not_le.mp hlen)
  refine RLInv.append inv hmin t _ ht hcount rfl ?_ ?_
  · exact isSuffix_append_single t ((popOld_isSuffix (t - 60) s.hist).trans inv.suffixHist)
  · intro e he hrec
    rcases List.mem_append.mp he with heg | het
    · exact List.mem_append.mpr
        (Or.inl (recent_mem_pop hmin inv t (t - 60) ht le_rfl e heg hrec))
    · obtain rfl : e = t := by simpa using het
      exact List.mem_append.mpr (Or.inr (List.mem_singleton.mpr rfl))

/-- Helper: a `_respect_rate_limits` grant preserves the invariant. -/
theorem RLInv.respectStep {minInt : ℚ} {rpm : Nat} {g : List ℚ} {s : RLState}
    (inv : RLInv minInt rpm g s) (hmin : 0 < minInt) (hrpm : 1 ≤ rpm) (t0 : ℚ) :
    RLInv minInt rpm (g ++ [(respectRateLimits minInt rpm s t0).1])
      (respectRateLimits minInt rpm s t0).2 := by
  have hmin1 : s.last + minInt ≤ max t0 (s.last + minInt) := le_max_right _ _
  have hsub1 : List.IsSuffix (popOld (max t0 (s.last + minInt) - 60) s.hist) g :=
    (popOld_isSuffix _ s.hist).trans inv.suffixHist
  by_cases hlen : rpm ≤ (popOld (max t0 (s.last + minInt) - 60) s.hist).length
  · obtain ⟨a, rest, ha⟩ :
        ∃ a rest, popOld (max t0 (s.last + minInt) - 60) s.hist = a :: rest := by
      cases hcons : popOld (max t0 (s.last + minInt) - 60) s.hist with
      | nil => rw [hcons] at hlen; simp at hlen; omega
      | cons a rest => exact ⟨a, rest, rfl⟩
    have hga : max t0 (s.last + minInt) - 60 ≤ a := head_popOld_ge _ s.hist a rest ha
    have hag : a ∈ g := hsub1.subset (ha ▸ List.mem_cons_self a rest)
    have hcovmem : ∀ e ∈ g, a < e →
        e ∈ popOld (max t0 (s.last + minInt) - 60) s.hist := by
      intro e heg hae
      have h2 : s.last + minInt ≤ max t0 (s.last + minInt) := le_max_right _ _
      have h1 : s.last - 60 < e := by linarith
      exact mem_popOld _ e s.hist (inv.coverage e heg h1) (by linarith)
    by_cases hsl : max t0 (s.last + minInt) - a < 60
    · -- window full and the oldest entry still inside: sleep to `oldest + 60`
      have h2eq : popOld (a + 60 - 60) (a :: rest) = a :: rest := by
        unfold popOld
        rw [List.dropWhile_cons]
        have : ¬(a < a + 60 - 60) := by linarith
        simp [this]
      have heq : respectRateLimits minInt rpm s t0
          = (a + 60, ⟨a + 60, appendCap rpm (a :: rest) (a + 60)⟩) := by
        simp only [respectRateLimits]
        rw [if_pos hlen, ha]
        simp only [List.headD_cons]
        rw [if_pos hsl, h2eq]
      rw [heq]
      have ht : s.last + minInt ≤ a + 60 := by linarith
      refine RLInv.append inv hmin (a + 60) _ ht ?_ rfl ?_ ?_
      · exact count_bound_of_boundary hmin inv (a + 60) ht
          (by rw [show a + 60 - 60 = a by ring]; exact hag)
      · exact appendCap_suffix rpm _ g (a + 60) (ha ▸ hsub1)
      · intro e he hrec
        have ha60 : a + 60 - 60 = a := by ring
        rw [ha60] at hrec
        rcases List.mem_append.mp he with heg | het
        · exact mem_appendCap_of_ne_head rpm _ (a + 60) e a rest rfl
            (ha ▸ hcovmem e heg hrec) (ne_of_gt hrec)
        · obtain rfl : e = a + 60 := by simpa using het
          exact mem_appendCap_self rpm _ (a + 60)
    · -- window full but the oldest entry exactly leaves: grant immediately
      have haeq : a = max t0 (s.last + minInt) - 60 := le_antisymm (by linarith) hga
      have heq : respectRateLimits minInt rpm s t0
          = (max t0 (s.last + minInt),
              ⟨max t0 (s.last + minInt),
                appendCap rpm (a :: rest) (max t0 (s.last + minInt))⟩) := by
        simp only [respectRateLimits]
        rw [if_pos hlen, ha]
        simp only [List.headD_cons]
        rw [if_neg hsl]
      rw [heq]
      refine RLInv.append inv hmin (max t0 (s.last + minInt)) _ hmin1 ?_ rfl ?_ ?_
      · refine count_bound_of_boundary hmin inv _ hmin1 ?_
        rw [← haeq]
        exact hag
      · exact appendCap_suffix rpm _ g _ (ha ▸ hsub1)
      · intro e he hrec
        rcases List.mem_append.mp he with heg | het
        · refine mem_appendCap_of_ne_head rpm _ _ e a rest rfl
            (ha ▸ hcovmem e heg (by linarith [hrec])) ?_
          intro hEq
          rw [hEq, haeq] at hrec
          linarith
        · obtain rfl : e = max t0 (s.last + minInt) := by simpa using het
          exact mem_appendCap_self rpm _ _
  · -- window not full: grant at `now1`
    have heq : respectRateLimits minInt rpm s t0
        = (max t0 (s.last + minInt),
            ⟨max t0 (s.last + minInt),
              appendCap rpm (popOld (max t0 (s.last + minInt) - 60) s.hist)
                (max t0 (s.last + minInt))⟩) := by
      simp only [respectRateLimits]
      rw [if_neg hlen]
    rw [heq]
    have hshort := not_le.mp hlen
    refine RLInv.append inv hmin (max t0 (s.last + minInt)) _ hmin1 ?_ rfl ?_ ?_
    · exact count_bound_of_short hmin inv _ _ hmin1 le_rfl hshort
    · exact appendCap_suffix rpm _ g _ hsub1
    · intro e he hrec
      rcases List.mem_append.mp he with heg | het
      · exact mem_appendCap_of_short rpm _ _ e hshort
          (recent_mem_pop hmin inv _ _ hmin1 le_rfl e heg hrec)
      · obtain rfl : e = max t0 (s.last + minInt) := by simpa using het
        exact mem_appendCap_self rpm _ _

/-- Helper: the invariant holds for the initial state of either gate. -/
theorem RLInv.initial (minInt : ℚ) (rpm : Nat) : RLInv minInt rpm [] ⟨0, []⟩ := by
  refine ⟨List.Pairwise.nil, ?_, ?_, ?_, ?_⟩
  · intro T; simp [windowCount]
  · intro e he; cases he
  · exact List.nil_suffix
  · intro e he; cases he

/-- C1 (amended).  Per-gate rate limiter spacing and window bound: the two
gates keep disjoint, unsynchronized module states, so the bound holds for
each gate separately.  Along every trace of grants produced from the
initial state of the global patch gate by `_block_until_slot_sync` checks,
and along every trace produced from the initial state of the `llm.py` gate
by `_respect_rate_limits` calls, any two recorded grant timestamps of that
gate are at least `minInt` apart, and every trailing 60-second window
`(T - 60, T]` contains at most `rpm` grants of that gate. -/
theorem rate_limiter_per_gate_spacing_and_window_bound (minInt : ℚ) (rpm : Nat)
    (gSync gRespect : List ℚ) (sSync sRespect : RLState)
    (hmin : 0 < minInt) (hrpm : 1 ≤ rpm)
    (hgS : SyncGrants minInt rpm ⟨0, []⟩ gSync sSync)
    (hgR : RespectGrants minInt rpm ⟨0, []⟩ gRespect sRespect) :
    (List.Pairwise (fun a b => a + minInt ≤ b) gSync
      ∧ ∀ T : ℚ, windowCount T gSync ≤ rpm)
    ∧ (List.Pairwise (fun a b => a + minInt ≤ b) gRespect
      ∧ ∀ T : ℚ, windowCount T gRespect ≤ rpm) := by
  constructor
  · suffices h : RLInv minInt rpm gSync sSync from ⟨h.spaced, h.window⟩
    induction hgS with
    | nil => exact RLInv.initial minInt rpm
    | sync t hg hw ih => exact RLInv.syncStep ih hmin hrpm t hw
  · suffices h : RLInv minInt rpm gRespect sRespect from ⟨h.spaced, h.window⟩
    induction hgR with
    | nil => exact RLInv.initial minInt rpm
    | respect t0 hg ih => exact RLInv.respectStep ih hmin hrpm t0

/-- Witness for `rate_limiter_per_gate_spacing_and_window_bound`: one grant
per gate from the respective initial states with `minInterval = 1`,
`rpmLimit = 1`, both at clock 100. -/
theorem rate_limiter_per_gate_spacing_and_window_bound_witness :
    (List.Pairwise (fun a b => a + (1 : ℚ) ≤ b) ([] ++ [(100 : ℚ)])
      ∧ windowCount 100 ([] ++ [(100 : ℚ)]) ≤ 1)
    ∧ (List.Pairwise (fun a b => a + (1 : ℚ) ≤ b)
        ([] ++ [(respectRateLimits 1 1 ⟨0, []⟩ 100).1])
      ∧ windowCount 100 ([] ++ [(respectRateLimits 1 1 ⟨0, []⟩ 100).1]) ≤ 1) :=
  have h := rate_limiter_per_gate_spacing_and_window_bound 1 1 _ _ _ _
    (by norm_num) (by norm_num)
    (SyncGrants.sync 100 SyncGrants.nil (by norm_num [computeWait, popOld]))
    (RespectGrants.respect 100 RespectGrants.nil)
  ⟨⟨h.1.1, h.1.2 100⟩, ⟨h.2.1, h.2.2 100⟩⟩

/-- C1 counterexample.  The two gates are disjoint module states: with
`minInterval = 15` and `rpmLimit = 8`, the global patch gate grants at
clock 100 from its initial state while the `llm.py` gate, from its own
initial state, grants at clock 100 + 1/2 — two recorded grant timestamps
(one per gate, both reachable in one program run since `agent.py` installs
the patch and the workflow agents call through `generate_with_retry`)
differing by half a second, far less than `minInterval`. -/
theorem rate_limiter_cross_gate_counterexample :
    SyncGrants 15 8 ⟨0, []⟩ [(100 : ℚ)] ⟨100, [100]⟩
    ∧ RespectGrants 15 8 ⟨0, []⟩ [(100 + 1/2 : ℚ)] ⟨100 + 1/2, [100 + 1/2]⟩
    ∧ (100 + 1/2 : ℚ) - 100 < 15 := by
  refine ⟨?_, ?_, by norm_num⟩
  · have h0 : SyncGrants 15 8 ⟨0, []⟩ [] ⟨0, []⟩ := SyncGrants.nil
    have h := SyncGrants.sync 100 h0 (by norm_num [computeWait, popOld])
    simpa [computeWait, popOld] using h
  · have h0 : RespectGrants 15 8 ⟨0, []⟩ [] ⟨0, []⟩ := RespectGrants.nil
    have h := RespectGrants.respect (100 + 1/2) h0
    have heq : respectRateLimits 15 8 ⟨0, []⟩ (100 + 1/2)
        = (100 + 1/2, ⟨100 + 1/2, [100 + 1/2]⟩) := by
      norm_num [respectRateLimits, popOld, appendCap, histMaxLen]
    rw [heq] at h
    simpa using h

/-- C4 counterexample.  A sequential run whose four insight tasks all raise
completes and is returned by `run_adk_a` as a pipeline state — but with the
non-terminal status `processing`, not a terminal one. -/
theorem scheduler_counterexample :
    (run_adk_a "doc-1" (.ok (processParallelInsights (.error "e1") (.error "e2")
        (.error "e3") (fun _ => .error "e4") sampleProcessingState))).status = "processing"
    ∧ "processing" ∉ ["completed", "completed_with_warning", "error"] :=
  ⟨rfl, by decide⟩

/-- Helper: the retry loop under a permanently failing, always-retryable
behavior performs all allowed attempts, sleeps `baseDelay ^ attempt` between
them, and ends with the error of the last attempt. -/
theorem attemptLoop_allfail (b : Nat → Except GenError String) (d : Nat)
    (e : Nat → GenError) (hb : ∀ a, b a = .error (e a))
    (hr : ∀ a, isRetryable (e a) = true) :
    ∀ n a, attemptLoop b d a (n + 1)
      = ⟨.error (e (a + n)), n + 1, n + 1, (List.range n).map (fun i => d ^ (a + i))⟩ := by
  intro n
  induction n with
  | zero => intro a; simp [attemptLoop, hb a]
  | succ m ih =>
    intro a
    have hrec := ih (a + 1)
    rw [attemptLoop.eq_2, hb a]
    simp only [hr a, Bool.not_true, Bool.or_false, decide_eq_true_eq,
      if_neg (by omega : ¬ (m + 1 = 0)), hrec]
    simp only [RetryOutcome.mk.injEq, List.range_succ_eq_map, List.map_cons, List.map_map]
    refine ⟨by rw [show a + 1 + m = a + (m + 1) by omega], trivial, trivial, ?_⟩
    rw [show a + 0 = a by omega]
    refine congrArg _ (List.map_congr_left fun i _ => ?_)
    simp only [Function.comp_apply]
    rw [show a + 1 + i = a + Nat.succ i by omega]

/-- C2.  Retry attempt bound for `generate_with_retry` with an explicit
attempt budget `n ≥ 1` and a cold cache: if every attempt fails with a
retryable error, the model call is invoked exactly `n` times and the last
error is re-raised; if the first failure is fatal (not retryable), the model
call is invoked exactly once and that error is re-raised immediately. -/
theorem retry_attempt_bound (hashFn : String → String)
    (b : Nat → Except GenError String) (p : String) (n dflt d : Nat)
    (e : Nat → GenError) (hn : 1 ≤ n) :
    ((∀ a, b a = .error (e a)) → (∀ a, isRetryable (e a) = true) →
      (generate_with_retry hashFn b p (some n) dflt d true []).outcome.result = .error (e n)
        ∧ (generate_with_retry hashFn b p (some n) dflt d true []).outcome.invocations = n)
    ∧ (b 1 = .error (e 1) → isRetryable (e 1) = false →
      (generate_with_retry hashFn b p (some n) dflt d true []).outcome.result = .error (e 1)
        ∧ (generate_with_retry hashFn b p (some n) dflt d true []).outcome.invocations = 1) := by
  obtain ⟨m, rfl⟩ : ∃ m, n = m + 1 := ⟨n - 1, by omega⟩
  constructor
  · intro hb hr
    have h := attemptLoop_allfail b d e hb hr m 1
    rw [show (1 : Nat) + m = m + 1 by omega] at h
    simp [generate_with_retry, h]
  · intro hb1 hf
    have h : attemptLoop b d 1 (m + 1) = ⟨.error (e 1), 1, 1, []⟩ := by
      rw [attemptLoop.eq_2, hb1]
      simp [hf]
    simp [generate_with_retry, h]

/-- Witness for `retry_attempt_bound` at the concrete budget 2 with a
permanently failing HTTP-500 behavior and, separately, a fatal behavior. -/
theorem retry_attempt_bound_witness :
    (1 ≤ 2)
    ∧ ((generate_with_retry (fun s => s) (fun _ => .error ⟨some 500, false⟩)
          "p" (some 2) 5 3 true []).outcome.result = .error ⟨some 500, false⟩
        ∧ (generate_with_retry (fun s => s) (fun _ => .error ⟨some 500, false⟩)
            "p" (some 2) 5 3 true []).outcome.invocations = 2)
    ∧ ((generate_with_retry (fun s => s) (fun _ => .error ⟨some 400, false⟩)
          "p" (some 2) 5 3 true []).outcome.result = .error ⟨some 400, false⟩
        ∧ (generate_with_retry (fun s => s) (fun _ => .error ⟨some 400, false⟩)
            "p" (some 2) 5 3 true []).outcome.invocations = 1) :=
  ⟨by norm_num,
    (retry_attempt_bound (fun s => s) (fun _ => .error ⟨some 500, false⟩) "p" 2 5 3
      (fun _ => ⟨some 500, false⟩) (by norm_num)).1 (fun _ => rfl) (fun _ => rfl),
    (retry_attempt_bound (fun s => s) (fun _ => .error ⟨some 400, false⟩) "p" 2 5 3
      (fun _ => ⟨some 400, false⟩) (by norm_num)).2 rfl rfl⟩

/-- C7.  Exponential backoff schedule: under a permanently failing retryable
behavior with budget `n ≥ 1` and base delay `d`, the sleep inserted after
attempt `a` (before attempt `a+1`) is `d ^ a` seconds, the model call is
invoked exactly `n` times, and the last error is re-raised; with `n = 3` and
`d = 3` the sleeps are exactly 3s then 9s. -/
theorem exponential_backoff_schedule (hashFn : String → String)
    (b : Nat → Except GenError String) (p : String) (n dflt d : Nat)
    (e : Nat → GenError) (hn : 1 ≤ n)
    (hb : ∀ a, b a = .error (e a)) (hr : ∀ a, isRetryable (e a) = true) :
    (generate_with_retry hashFn b p (some n) dflt d true []).outcome.sleeps
      = (List.range (n - 1)).map (fun i => d ^ (1 + i))
    ∧ (generate_with_retry hashFn b p (some n) dflt d true []).outcome.invocations = n
    ∧ (generate_with_retry hashFn b p (some n) dflt d true []).outcome.result = .error (e n)
    ∧ (n = 3 → d = 3 →
        (generate_with_retry hashFn b p (some n) dflt d true []).outcome.sleeps = [3, 9]) := by
  obtain ⟨m, rfl⟩ : ∃ m, n = m + 1 := ⟨n - 1, by omega⟩
  have h := attemptLoop_allfail b d e hb hr m 1
  rw [show (1 : Nat) + m = m + 1 by omega] at h
  have hgen : (generate_with_retry hashFn b p (some (m + 1)) dflt d true []).outcome
      = ⟨.error (e (m + 1)), m + 1, m + 1, (List.range m).map (fun i => d ^ (1 + i))⟩ := by
    simp [generate_with_retry, h]
  refine ⟨by rw [hgen]; simp, by rw [hgen], by rw [hgen], ?_⟩
  intro h3 hd
  obtain rfl : m = 2 := by omega
  subst hd
  rw [hgen]
  show List.map (fun i => (3 : Nat) ^ (1 + i)) (List.range 2) = [3, 9]
  decide

/-- Witness for `exponential_backoff_schedule` at `n = 3`, `d = 3`: the
sleeps are `[3, 9]`. -/
theorem exponential_backoff_schedule_witness :
    (generate_with_retry (fun s => s) (fun _ => .error ⟨some 503, false⟩)
        "p" (some 3) 5 3 true []).outcome.sleeps = [3, 9] :=
  (exponential_backoff_schedule (fun s => s) (fun _ => .error ⟨some 503, false⟩) "p" 3 5 3
    (fun _ => ⟨some 503, false⟩) (by norm_num) (fun _ => rfl) (fun _ => rfl)).2.2.2 rfl rfl

/-- C6.  Cache idempotence: two sequential `generate_with_retry` calls with
the same prompt (hence the same model request), where the first is a cache
miss succeeding on its first attempt, perform exactly one rate-limiter
acquisition in total; the second call performs zero attempts and zero
acquisitions and returns the identical response. -/
theorem cache_idempotence (hashFn : String → String)
    (b : Nat → Except GenError String) (p resp : String) (m dflt d : Nat)
    (n2 : Option Nat) (dflt2 d2 : Nat) (cache0 : List (String × String))
    (hmiss : cache0.lookup (hashFn p) = none) (hok : b 1 = .ok resp) (hm : 1 ≤ m) :
    (generate_with_retry hashFn b p (some m) dflt d true cache0).outcome = ⟨.ok resp, 1, 1, []⟩
    ∧ (generate_with_retry hashFn b p (some m) dflt d true cache0).cache
        = (hashFn p, resp) :: cache0
    ∧ (generate_with_retry hashFn b p n2 dflt2 d2 true
        (generate_with_retry hashFn b p (some m) dflt d true cache0).cache).outcome
        = ⟨.ok resp, 0, 0, []⟩
    ∧ (generate_with_retry hashFn b p (some m) dflt d true cache0).outcome.acquisitions
        + (generate_with_retry hashFn b p n2 dflt2 d2 true
            (generate_with_retry hashFn b p (some m) dflt d true cache0).cache).outcome.acquisitions
        = 1 := by
  obtain ⟨k, rfl⟩ : ∃ k, m = k + 1 := ⟨m - 1, by omega⟩
  have hloop : attemptLoop b d 1 (k + 1) = ⟨.ok resp, 1, 1, []⟩ := by
    rw [attemptLoop.eq_2, hok]
  have hc1 : generate_with_retry hashFn b p (some (k + 1)) dflt d true cache0
      = ⟨⟨.ok resp, 1, 1, []⟩, (hashFn p, resp) :: cache0⟩ := by
    simp [generate_with_retry, hmiss, hloop]
  have hc2 : generate_with_retry hashFn b p n2 dflt2 d2 true ((hashFn p, resp) :: cache0)
      = ⟨⟨.ok resp, 0, 0, []⟩, (hashFn p, resp) :: cache0⟩ := by
    simp [generate_with_retry, List.lookup]
  rw [hc1]
  exact ⟨rfl, rfl, by rw [hc2], by simp [hc2]⟩

/-- Witness for `cache_idempotence` on a concrete prompt and response. -/
theorem cache_idempotence_witness :
    (generate_with_retry (fun s => s) (fun _ => .ok "resp") "p" (some 5) 5 3 true []).outcome
      = ⟨.ok "resp", 1, 1, []⟩
    ∧ (generate_with_retry (fun s => s) (fun _ => .ok "resp") "p" (some 5) 5 3 true []).cache
        = [("p", "resp")]
    ∧ (generate_with_retry (fun s => s) (fun _ => .ok "resp") "p" none 5 3 true
        (generate_with_retry (fun s => s) (fun _ => .ok "resp") "p" (some 5) 5 3 true []).cache).outcome
        = ⟨.ok "resp", 0, 0, []⟩
    ∧ (generate_with_retry (fun s => s) (fun _ => .ok "resp") "p" (some 5) 5 3 true []).outcome.acquisitions
        + (generate_with_retry (fun s => s) (fun _ => .ok "resp") "p" none 5 3 true
            (generate_with_retry (fun s => s) (fun _ => .ok "resp") "p" (some 5) 5 3 true []).cache).outcome.acquisitions
        = 1 :=
  cache_idempotence (fun s => s) (fun _ => .ok "resp") "p" "resp" 5 5 3 none 5 3 []
    rfl rfl (by norm_num)

/-- C5 (amended).  The cache key is a function of the rendered request text
only — `sha256(prompt)[:16]` — so a second call with the same prompt but a
different model (any behavior `b2`) hits the cache entry of the first
model: it performs zero invocations and returns the cached response. -/
theorem cache_key_prompt_only (hashFn : String → String)
    (b1 b2 : Nat → Except GenError String) (p resp : String) (m dflt d : Nat)
    (n2 : Option Nat) (dflt2 d2 : Nat) (cache0 : List (String × String))
    (hmiss : cache0.lookup (hashFn p) = none) (hok : b1 1 = .ok resp) (hm : 1 ≤ m) :
    (generate_with_retry hashFn b2 p n2 dflt2 d2 true
        (generate_with_retry hashFn b1 p (some m) dflt d true cache0).cache).outcome
      = ⟨.ok resp, 0, 0, []⟩ := by
  obtain ⟨k, rfl⟩ : ∃ k, m = k + 1 := ⟨m - 1, by omega⟩
  have hloop : attemptLoop b1 d 1 (k + 1) = ⟨.ok resp, 1, 1, []⟩ := by
    rw [attemptLoop.eq_2, hok]
  have hc1 : generate_with_retry hashFn b1 p (some (k + 1)) dflt d true cache0
      = ⟨⟨.ok resp, 1, 1, []⟩, (hashFn p, resp) :: cache0⟩ := by
    simp [generate_with_retry, hmiss, hloop]
  rw [hc1]
  simp [generate_with_retry, List.lookup]

/-- Witness for `cache_key_prompt_only`: model A answers `responseA`, model
B would answer `responseB`, yet the second call returns `responseA`. -/
theorem cache_key_prompt_only_witness :
    (generate_with_retry (fun s => s) (fun _ => .ok "responseB") "prompt" (some 1) 5 3 true
        (generate_with_retry (fun s => s) (fun _ => .ok "responseA") "prompt"
          (some 1) 5 3 true []).cache).outcome
      = ⟨.ok "responseA", 0, 0, []⟩ :=
  cache_key_prompt_only (fun s => s) (fun _ => .ok "responseA") (fun _ => .ok "responseB")
    "prompt" "responseA" 1 5 3 (some 1) 5 3 [] rfl rfl (by norm_num)

/-- C5 counterexample.  Two calls with the same request text issued for two
different models (behaviors answering `responseA` and `responseB`) do NOT
use distinct cache entries: the second call returns the response of the
first model with zero invocations of its own model. -/
theorem cache_key_counterexample :
    (generate_with_retry (fun s => s) (fun _ => .ok "responseB") "prompt" (some 1) 5 3 true
        (generate_with_retry (fun s => s) (fun _ => .ok "responseA") "prompt"
          (some 1) 5 3 true []).cache).outcome.result = .ok "responseA"
    ∧ (generate_with_retry (fun s => s) (fun _ => .ok "responseB") "prompt" (some 1) 5 3 true
        (generate_with_retry (fun s => s) (fun _ => .ok "responseA") "prompt"
          (some 1) 5 3 true []).cache).outcome.invocations = 0
    ∧ "responseA" ≠ "responseB" :=
  ⟨rfl, rfl, by decide⟩

/-- C9 (amended).  The derived default for `LLM_MIN_CALL_INTERVAL` in
legal-doc-processor-a is `max(60 / rpmLimit, 8)` seconds, i.e. `60/rpmLimit`
for `rpmLimit ≤ 7.5` and the 8-second floor above that. -/
theorem llm_min_call_interval_characterization (rpm : ℚ) (h1 : 1 ≤ rpm) :
    llmMinCallIntervalDefaultA rpm = if rpm ≤ 15 / 2 then 60 / rpm else 8 := by
  have hpos : (0 : ℚ) < rpm := by linarith
  unfold llmMinCallIntervalDefaultA
  rcases le_or_lt rpm (15 / 2) with h | h
  · rw [if_pos h, max_eq_left]
    rw [le_div_iff₀ hpos]
    linarith
  · rw [if_neg (not_le.mpr h), max_eq_right]
    rw [div_le_iff₀ hpos]
    linarith

/-- Witness for `llm_min_call_interval_characterization` at the shipped
default `rpmLimit = 8`: the derived interval is the 8-second floor. -/
theorem llm_min_call_interval_characterization_witness :
    llmMinCallIntervalDefaultA 8 = if (8 : ℚ) ≤ 15 / 2 then 60 / 8 else 8 :=
  llm_min_call_interval_characterization 8 (by norm_num)

/-- C9 counterexample.  At the shipped default `rpmLimit = 8`, the derived
default interval of processor-a is 8 seconds, not the claimed
`max(60/rpmLimit, 15) = 15` (that formula belongs to advisor-b). -/
theorem llm_min_call_interval_counterexample :
    llmMinCallIntervalDefaultA 8 = 8 ∧ specMinCallIntervalDefault 8 = 15
    ∧ llmMinCallIntervalDefaultA 8 ≠ specMinCallIntervalDefault 8 := by
  refine ⟨?_, ?_, ?_⟩ <;>
    norm_num [llmMinCallIntervalDefaultA, specMinCallIntervalDefault]

/-- C10.  Rate-limiter installation is idempotent: one successful call
stores `max(min_interval, 0.1)` and `max(rpm_limit, 1)` and wraps the model
classes; every later call, with any arguments and any import situation,
returns the state unchanged. -/
theorem install_rate_limiter_idempotent (s0 : PatchState) (mi mi2 : ℚ)
    (rl rl2 : Int) (iOk mp : Bool) (h : s0.patchInstalled = false) :
    (install_global_llm_rate_limiter true true s0 mi rl).patchInstalled = true
    ∧ (install_global_llm_rate_limiter true true s0 mi rl).minInterval = max mi (1 / 10)
    ∧ (install_global_llm_rate_limiter true true s0 mi rl).rpmLimit = max rl 1
    ∧ (install_global_llm_rate_limiter true true s0 mi rl).syncWrapped = true
    ∧ (install_global_llm_rate_limiter true true s0 mi rl).asyncWrapped = true
    ∧ install_global_llm_rate_limiter iOk mp
        (install_global_llm_rate_limiter true true s0 mi rl) mi2 rl2
      = install_global_llm_rate_limiter true true s0 mi rl := by
  simp [install_global_llm_rate_limiter, h]

/-- Witness for `install_rate_limiter_idempotent` on a fresh module state
with a reconfiguration attempt that would lower the limits. -/
theorem install_rate_limiter_idempotent_witness :
    ((⟨1, 60, false, false, false⟩ : PatchState).patchInstalled = false)
    ∧ ((install_global_llm_rate_limiter true true ⟨1, 60, false, false, false⟩ 8 8).patchInstalled = true
      ∧ (install_global_llm_rate_limiter true true ⟨1, 60, false, false, false⟩ 8 8).minInterval = max 8 (1 / 10)
      ∧ (install_global_llm_rate_limiter true true ⟨1, 60, false, false, false⟩ 8 8).rpmLimit = max 8 1
      ∧ (install_global_llm_rate_limiter true true ⟨1, 60, false, false, false⟩ 8 8).syncWrapped = true
      ∧ (install_global_llm_rate_limiter true true ⟨1, 60, false, false, false⟩ 8 8).asyncWrapped = true
      ∧ install_global_llm_rate_limiter false true
          (install_global_llm_rate_limiter true true ⟨1, 60, false, false, false⟩ 8 8) 0 0
        = install_global_llm_rate_limiter true true ⟨1, 60, false, false, false⟩ 8 8) :=
  ⟨rfl, install_rate_limiter_idempotent ⟨1, 60, false, false, false⟩ 8 0 8 0 false true rfl⟩

/-- C8.  Downstream dispatch failure handling: the dispatch stage makes at
most `MAX_ATTEMPTS = 3` POSTs with timeout `DISPATCH_TIMEOUT = (10, 180)`
and sleeps `BACKOFF_SECONDS * attempt = 5 * attempt` between attempts; when
all three attempts raise, the state comes back with status
`completed_with_warning`, exactly one appended error entry referencing the
dispatch failure, and `adk_b_response` set to the `dispatch_failed` record. -/
theorem dispatch_failure_handling
    (att : Nat → Nat × Nat → Except String HttpResponse) (st : SDict)
    (e1 e2 e3 : String) (hready : st.ready_for_suggestions = some true)
    (h1 : att 1 DISPATCH_TIMEOUT = .error e1)
    (h2 : att 2 DISPATCH_TIMEOUT = .error e2)
    (h3 : att 3 DISPATCH_TIMEOUT = .error e3) :
    MAX_ATTEMPTS = 3 ∧ DISPATCH_TIMEOUT = (10, 180) ∧ BACKOFF_SECONDS = 5
    ∧ (dispatchLoop att 1 MAX_ATTEMPTS).calls = [(1, 10, 180), (2, 10, 180), (3, 10, 180)]
    ∧ (dispatchLoop att 1 MAX_ATTEMPTS).sleeps = [5, 10]
    ∧ (a2aDispatchProcess true att st).status = "completed_with_warning"
    ∧ (a2aDispatchProcess true att st).errors
        = st.errors ++ ["ADK-B dispatch failed after 3 attempts: " ++ e3]
    ∧ (a2aDispatchProcess true att st).adk_b_response = some (.dispatchFailed e3) := by
  have hloop : dispatchLoop att 1 MAX_ATTEMPTS
      = ⟨none, some e3, [(1, 10, 180), (2, 10, 180), (3, 10, 180)], [5, 10],
          ["Dispatch attempt 1 failed: " ++ e1, "Dispatch attempt 2 failed: " ++ e2,
            "Dispatch attempt 3 failed: " ++ e3]⟩ := by
    show dispatchLoop att 1 3 = _
    rw [dispatchLoop.eq_2, h1]
    rw [dispatchLoop.eq_2, h2]
    rw [dispatchLoop.eq_2, h3]
    simp only [DISPATCH_TIMEOUT, BACKOFF_SECONDS]
    rfl
  refine ⟨rfl, rfl, rfl, by rw [hloop], by rw [hloop], ?_, ?_, ?_⟩ <;>
    simp [a2aDispatchProcess, hready, hloop]

/-- Witness for `dispatch_failure_handling`: dispatch target down for all
three attempts on a ready pipeline state. -/
theorem dispatch_failure_handling_witness :
    ({ sampleProcessingState with ready_for_suggestions := some true } :
        SDict).ready_for_suggestions = some true
    ∧ (a2aDispatchProcess true (fun _ _ => .error "connection refused")
        { sampleProcessingState with ready_for_suggestions := some true }).status
      = "completed_with_warning"
    ∧ (a2aDispatchProcess true (fun _ _ => .error "connection refused")
        { sampleProcessingState with ready_for_suggestions := some true }).adk_b_response
      = some (.dispatchFailed "connection refused") :=
  have h := dispatch_failure_handling (fun _ _ => .error "connection refused")
    { sampleProcessingState with ready_for_suggestions := some true }
    "connection refused" "connection refused" "connection refused" rfl rfl rfl rfl
  ⟨rfl, h.2.2.2.2.2.1, h.2.2.2.2.2.2.2⟩

end LegalDoc
